import Mathlib

/-!
Verification development for the `python-taskmgr` repository.

The repository's spec describes two programs: a to-do Task Store
(add/toggle/delete/filter/sort over a JSON-persisted list of task records)
and a system-monitor front-end (`src/taskmgr.py`).  Only `taskmgr.py` is
present under `src/`; the Task Store is modelled from the spec's words
(each such definition says so in its doc comment).  The system monitor's
data-fetching loops, row parsing and display ordering are embedded from
`src/taskmgr.py` directly.
-/

namespace TaskStore

/-- Modelled from the spec (Task Store source file is missing from src/):
task record `{id, title, completed, created_at}` with string id and
timestamp, boolean completion flag. -/
structure Task where
  id : String
  title : String
  completed : Bool
  created_at : String
  deriving Repr, DecidableEq

/-- Modelled from the spec: the filter mode selector {All, Active, Completed}. -/
inductive FilterMode where
  | All
  | Active
  | Completed
  deriving Repr, DecidableEq

/-- Modelled from the spec: `filter(mode)` returns the subset matching the
mode; Active keeps records with `completed = false`, Completed the
complement, All the full list. -/
def filterTasks (mode : FilterMode) (tasks : List Task) : List Task :=
  match mode with
  | .All => tasks
  | .Active => tasks.filter (fun t => !t.completed)
  | .Completed => tasks.filter (fun t => t.completed)

/-- Modelled from the spec: blank input is an empty or whitespace-only
title (the guard of `add`). -/
def isBlankTitle (title : String) : Bool :=
  title.data.all Char.isWhitespace

/-- Modelled from the spec: `add(title)` rejects blank input silently (no
error surfaced), otherwise assigns the freshly generated id and creation
timestamp (passed in here, since they come from the clock), appends, and
surfaces no error either way.  The second component is the surfaced error
message, if any. -/
def addTask (tasks : List Task) (title newId newCreatedAt : String) :
    List Task × Option String :=
  if isBlankTitle title then (tasks, none)
  else (tasks ++ [{ id := newId, title := title, completed := false,
                    created_at := newCreatedAt }], none)

/-- Modelled from the spec: `toggle(id)` flips `completed` for the matching
record. -/
def toggleTask (tasks : List Task) (tid : String) : List Task :=
  tasks.map fun t =>
    if t.id == tid then { t with completed := !t.completed } else t

/-- Modelled from the spec: `delete(id)` requires interactive confirmation,
then removes the matching record; declining the dialog changes nothing. -/
def deleteTask (tasks : List Task) (tid : String) (confirmed : Bool) :
    List Task :=
  if confirmed then tasks.filter (fun t => t.id != tid) else tasks

/-- Modelled from the spec: JSON values, the persisted representation (the
spec's external interface is a JSON array of task records). -/
inductive Json where
  | null
  | bool (b : Bool)
  | num (n : Int)
  | str (s : String)
  | arr (elems : List Json)
  | obj (fields : List (String × Json))

/-- Modelled from the spec: one task record serialised as a JSON object
with its four fields. -/
def taskToJson (t : Task) : Json :=
  .obj [("id", .str t.id), ("title", .str t.title),
        ("completed", .bool t.completed), ("created_at", .str t.created_at)]

/-- Field lookup in a JSON object's field list. -/
def getField (fields : List (String × Json)) (key : String) : Option Json :=
  match fields.find? (fun p => p.1 == key) with
  | some p => some p.2
  | none => none

def asStr : Json → Option String
  | .str s => some s
  | _ => none

def asBool : Json → Option Bool
  | .bool b => some b
  | _ => none

/-- Modelled from the spec: decoding one task record from JSON. -/
def taskOfJson (j : Json) : Option Task :=
  match j with
  | .obj fs => do
      let id ← getField fs "id" >>= asStr
      let title ← getField fs "title" >>= asStr
      let completed ← getField fs "completed" >>= asBool
      let created ← getField fs "created_at" >>= asStr
      some { id := id, title := title, completed := completed,
             created_at := created }
  | _ => none

/-- Modelled from the spec: `save` writes the whole list as a JSON array of
task records. -/
def saveTasks (tasks : List Task) : Json :=
  .arr (tasks.map taskToJson)

/-- Modelled from the spec: `load` reads the JSON array back into a list of
task records; anything malformed fails (the app then falls back to the
empty list). -/
def loadTasks (j : Json) : Option (List Task) :=
  match j with
  | .arr elems => elems.mapM taskOfJson
  | _ => none

/-- Modelled from the spec: sort rank of a record, incomplete (0) before
completed (1). -/
def taskRank (t : Task) : Nat :=
  if t.completed then 1 else 0

/-- Modelled from the spec: the sort order, primary key the completion
rank, secondary key the creation timestamp ascending under lexicographic
string comparison. -/
def taskLE (a b : Task) : Bool :=
  decide (taskRank a < taskRank b ∨
    (taskRank a = taskRank b ∧ a.created_at ≤ b.created_at))

/-- Modelled from the spec: `sort` orders incomplete tasks before completed
ones, each group by ascending creation timestamp. -/
def sortTasks (tasks : List Task) : List Task :=
  tasks.mergeSort taskLE

end TaskStore

namespace SysMon

/-- Value of a decimal digit string, as computed by Python `int` on a
nonempty string of digits. -/
def digitsToNat (ds : List Char) : Nat :=
  ds.foldl (fun acc c => acc * 10 + (c.toNat - 48)) 0

/-- One entry of `processes_data` (taskmgr.py line 200): the tuple
`(name, pid, mem, mem_clean)`. -/
structure ProcEntry where
  name : String
  pid : String
  mem : String
  memClean : Nat
  deriving Repr, DecidableEq

/-- Embedding of taskmgr.py line 199:
`mem_clean = int(re.sub(r"[^0-9]", "", mem))`.  The regex deletes every
character outside 0-9; Python `int` raises ValueError when nothing is
left. -/
def memCleanOf (mem : String) : Except String Nat :=
  let ds := mem.data.filter Char.isDigit
  if ds.isEmpty then .error ("invalid literal for int() with base 10: " ++ mem)
  else .ok (digitsToNat ds)

/-- Embedding of taskmgr.py lines 192-200, the body of the row loop: rows
with fewer than 5 fields are skipped; otherwise name, pid and the memory
field are taken from columns 0, 1 and 4 and the numeric memory key is
computed (which can raise).  The CSV splitting itself is done by Python's
`csv` module, an external collaborator; its output is the row list. -/
def parseRow (row : List String) : Except String (Option ProcEntry) :=
  if 5 ≤ row.length then
    match memCleanOf (row.getD 4 "") with
    | .error e => .error e
    | .ok mc => .ok (some { name := row.getD 0 "", pid := row.getD 1 "",
                            mem := row.getD 4 "", memClean := mc })
  else .ok none

/-- Embedding of the whole row loop (lines 189-200): `new_data` is built
row by row; an exception at any row aborts the loop (and the later
assignment to `processes_data`). -/
def parseRows : List (List String) → Except String (List ProcEntry)
  | [] => .ok []
  | row :: rest =>
    match parseRow row with
    | .error e => .error e
    | .ok none => parseRows rest
    | .ok (some p) =>
      match parseRows rest with
      | .error e => .error e
      | .ok ps => .ok (p :: ps)

/-- Pure per-row result under the assumption that no row raises: `some`
exactly for rows with at least 5 fields whose memory field contains a
digit. -/
def rowEntry? (row : List String) : Option ProcEntry :=
  if 5 ≤ row.length then
    match memCleanOf (row.getD 4 "") with
    | .error _ => none
    | .ok mc => some { name := row.getD 0 "", pid := row.getD 1 "",
                       mem := row.getD 4 "", memClean := mc }
  else none

/-- Outcome of one iteration of a `while self.running` loop body: either
the loop proceeds to its next iteration after `sleepSecs` seconds of
`time.sleep`, having possibly printed an error line, or an exception
escaped the body (which would terminate the loop and the thread). -/
inductive IterOutcome (σ : Type) where
  | next (st : σ) (printed : Option String) (sleepSecs : Nat)
  | escaped (exc : String)
  deriving Repr, DecidableEq

/-- The `try` block of loop_fetch_processes (lines 184-202): the
subprocess call and decode (modelled as the external result `ext`,
already split into CSV rows) followed by the row loop.  On success the
full new list is assigned to `processes_data`. -/
def procTryBlock (ext : Except String (List (List String))) :
    Except String (List ProcEntry) :=
  match ext with
  | .error e => .error e
  | .ok rows => parseRows rows

/-- One iteration of loop_fetch_processes (lines 183-207): the try block
wrapped in `except Exception` which prints and falls through to the
`time.sleep(3)`, keeping `processes_data` (`cur`) unchanged on failure. -/
def fetchProcessesIter (ext : Except String (List (List String)))
    (cur : List ProcEntry) : IterOutcome (List ProcEntry) :=
  match procTryBlock ext with
  | .ok newData => .next newData none 3
  | .error e => .next cur (some ("Error fetching processes: " ++ e)) 3

/-- The stats published by loop_fetch_stats (lines 51-53, 218, 232-233).
Python stores `mem_usage` as a float; it is modelled as the exact
rational, which only the display consumes. -/
structure Stats where
  cpu_usage : Nat
  mem_usage : ℚ
  total_mem : Nat
  deriving Repr, DecidableEq

/-- First maximal run of decimal digits in a character list, as found by
`re.search` with a digits-run pattern. -/
def firstDigitRun : List Char → Option (List Char)
  | [] => none
  | c :: rest =>
    if c.isDigit then some (c :: rest.takeWhile Char.isDigit)
    else firstDigitRun rest

/-- Embedding of line 216: `re.search` for a run of digits, then `int`. -/
def searchNat (s : String) : Option Nat :=
  (firstDigitRun s.data).map digitsToNat

/-- Embedding of lines 224-225: `re.search(key + "=(\d+)", out)` followed
by `int` on the captured group (modelled on the first occurrence of
`key=`). -/
def findKeyNum (key out : String) : Option Nat :=
  match out.splitOn (key ++ "=") with
  | _ :: rest :: _ =>
    let ds := rest.data.takeWhile Char.isDigit
    if ds.isEmpty then none else some (digitsToNat ds)
  | _ => none

/-- The `try` block of loop_fetch_stats (lines 212-233), threading the
partially updated state: `cpu_usage` is assigned before the memory fetch,
so a later failure keeps the new cpu value; the division by `total_kb`
raises when it is zero.  Returns the state as left by the block and the
exception message when one was raised. -/
def statsTryBlock (cpuOut memOut : Except String String) (st : Stats) :
    Stats × Option String :=
  match cpuOut with
  | .error e => (st, some e)
  | .ok cs =>
    let st1 := match searchNat cs with
      | some n => { st with cpu_usage := n }
      | none => st
    match memOut with
    | .error e => (st1, some e)
    | .ok ms =>
      match findKeyNum "FreePhysicalMemory" ms,
            findKeyNum "TotalVisibleMemorySize" ms with
      | some freeKb, some totalKb =>
        if totalKb = 0 then (st1, some "division by zero")
        else
          let usage : ℚ := (((totalKb : ℚ) - (freeKb : ℚ)) / (totalKb : ℚ)) * 100
          ({ st1 with total_mem := totalKb, mem_usage := usage }, none)
      | _, _ => (st1, none)

/-- One iteration of loop_fetch_stats (lines 211-238): try block wrapped in
`except Exception` which prints, then `time.sleep(1)`. -/
def fetchStatsIter (cpuOut memOut : Except String String) (st : Stats) :
    IterOutcome Stats :=
  match statsTryBlock cpuOut memOut st with
  | (stNew, none) => .next stNew none 1
  | (stNew, some e) => .next stNew (some ("Error fetching stats: " ++ e)) 1

/-- Embedding of update_ui_processes lines 254-260: the treeview is cleared
and repopulated with `sorted(processes_data, key=lambda x: x[3],
reverse=True)`, the numeric memory key descending. -/
def displayOrder (data : List ProcEntry) : List ProcEntry :=
  data.mergeSort (fun a b => decide (b.memClean ≤ a.memClean))

/-- The manager state relevant to the process loop: the `running` flag and
`processes_data` (lines 49-50 of __init__). -/
structure MgrState where
  running : Bool
  processes_data : List ProcEntry
  deriving Repr, DecidableEq

/-- Embedding of __init__ lines 49-50: `self.running = True`,
`self.processes_data = []`.  No statement anywhere in taskmgr.py assigns
`running` again. -/
def initState : MgrState :=
  { running := true, processes_data := [] }

/-- One pass of the `while self.running` check of loop_fetch_processes
(line 183): `none` means the loop has exited (flag false, or an exception
escaped the body); `some` carries the state at the next check. -/
def loopStep (ext : Except String (List (List String))) (st : MgrState) :
    Option MgrState :=
  if st.running then
    match fetchProcessesIter ext st.processes_data with
    | .next d _ _ => some { st with processes_data := d }
    | .escaped _ => none
  else none

/-- State of the process loop after `n` while-checks, fed subprocess
results from `env`; `none` once the loop has exited. -/
def loopRun (env : Nat → Except String (List (List String)))
    (st : MgrState) : Nat → Option MgrState
  | 0 => some st
  | n + 1 =>
    match loopRun env st n with
    | none => none
    | some stN => loopStep (env n) stN

/-- Embedding of end_task lines 288-305 as control flow: with no selection
a warning is shown and the method returns; with the dialog declined it
returns; when confirmed it runs taskkill and then calls
`self.loop_fetch_processes()` directly, so it returns only if that loop
exits within the observed number of while-checks (`fuel`). -/
def endTaskReturnsWithin (env : Nat → Except String (List (List String)))
    (st : MgrState) (hasSelection confirmed : Bool) (fuel : Nat) : Bool :=
  if !hasSelection then true
  else if !confirmed then true
  else (loopRun env st fuel).isNone

end SysMon

namespace SysMon

theorem fetchProcessesIter_next (ext : Except String (List (List String)))
    (cur : List ProcEntry) :
    ∃ d p, fetchProcessesIter ext cur = .next d p 3 := by
  cases h : procTryBlock ext with
  | error e =>
    exact ⟨cur, some ("Error fetching processes: " ++ e),
      by simp [fetchProcessesIter, h]⟩
  | ok d => exact ⟨d, none, by simp [fetchProcessesIter, h]⟩

theorem rowEntry?_of_parseRow (row : List String) (o : Option ProcEntry)
    (h : parseRow row = .ok o) : rowEntry? row = o := by
  by_cases hl : 5 ≤ row.length
  · simp only [parseRow, if_pos hl] at h
    simp only [rowEntry?, if_pos hl]
    cases hm : memCleanOf (row.getD 4 "") with
    | error e => rw [hm] at h; cases h
    | ok mc => rw [hm] at h; cases h; rfl
  · simp only [parseRow, if_neg hl] at h
    cases h
    simp only [rowEntry?, if_neg hl]

theorem parseRows_ok_eq (rows : List (List String)) (l : List ProcEntry)
    (h : parseRows rows = .ok l) : l = rows.filterMap rowEntry? := by
  induction rows generalizing l with
  | nil =>
    simp only [parseRows] at h
    cases h
    rfl
  | cons row rest ih =>
    simp only [parseRows] at h
    cases hr : parseRow row with
    | error e => rw [hr] at h; cases h
    | ok o =>
      rw [hr] at h
      have hre := rowEntry?_of_parseRow row o hr
      cases o with
      | none =>
        rw [List.filterMap_cons, hre]
        exact ih l h
      | some p =>
        cases hrest : parseRows rest with
        | error e => rw [hrest] at h; cases h
        | ok ps =>
          rw [hrest] at h
          cases h
          rw [List.filterMap_cons, hre]
          rw [ih ps hrest]

theorem parseRow_error_of_no_digits (row : List String) (h5 : 5 ≤ row.length)
    (hd : (row.getD 4 "").data.filter Char.isDigit = []) :
    ∃ e, parseRow row = .error e := by
  refine ⟨"invalid literal for int() with base 10: " ++ row.getD 4 "", ?_⟩
  simp only [parseRow, if_pos h5, memCleanOf, hd]
  rfl

theorem parseRows_error_of_row (rows : List (List String))
    (row : List String) (hm : row ∈ rows) (e : String)
    (he : parseRow row = .error e) :
    ∃ e2, parseRows rows = .error e2 := by
  induction rows with
  | nil => cases hm
  | cons r rest ih =>
    cases hpr : parseRow r with
    | error e2 => exact ⟨e2, by simp [parseRows, hpr]⟩
    | ok o =>
      have hmem : row ∈ rest := by
        rcases List.mem_cons.mp hm with rfl | hmem
        · rw [hpr] at he; cases he
        · exact hmem
      obtain ⟨e2, h2⟩ := ih hmem
      cases o with
      | none => exact ⟨e2, by simp [parseRows, hpr, h2]⟩
      | some p => exact ⟨e2, by simp [parseRows, hpr, h2]⟩

/-- C7: neither background fetch loop can be terminated by a failure: one
iteration of the process loop always reaches the next iteration with its
3-second sleep, one iteration of the stats loop always reaches the next
iteration with its 1-second sleep (never the escaped-exception outcome),
and whenever the try block raises, the message is printed and the
previous state of that block is kept. -/
theorem loops_survive_failures
    (ext : Except String (List (List String))) (cur : List ProcEntry)
    (cpuOut memOut : Except String String) (st : Stats) :
    (∃ d p, fetchProcessesIter ext cur = .next d p 3) ∧
    (∀ e, procTryBlock ext = .error e →
      fetchProcessesIter ext cur =
        .next cur (some ("Error fetching processes: " ++ e)) 3) ∧
    (∃ s2 p, fetchStatsIter cpuOut memOut st = .next s2 p 1) ∧
    (∀ e, (statsTryBlock cpuOut memOut st).2 = some e →
      fetchStatsIter cpuOut memOut st =
        .next (statsTryBlock cpuOut memOut st).1
          (some ("Error fetching stats: " ++ e)) 1) := by
  refine ⟨fetchProcessesIter_next ext cur, ?_, ?_, ?_⟩
  · intro e he
    simp [fetchProcessesIter, he]
  · cases h : statsTryBlock cpuOut memOut st with
    | mk s2 oe =>
      cases oe with
      | none => exact ⟨s2, none, by simp [fetchStatsIter, h]⟩
      | some e =>
        exact ⟨s2, some ("Error fetching stats: " ++ e),
          by simp [fetchStatsIter, h]⟩
  · intro e he
    cases h : statsTryBlock cpuOut memOut st with
    | mk s2 oe =>
      rw [h] at he
      simp only at he
      subst he
      simp [fetchStatsIter, h]

theorem loops_survive_failures_witness :
    fetchProcessesIter (.error "boom") [] =
      .next [] (some ("Error fetching processes: " ++ "boom")) 3 :=
  (loops_survive_failures (.error "boom") [] (.error "x") (.error "y")
    { cpu_usage := 0, mem_usage := 0, total_mem := 0 }).2.1 "boom" rfl

/-- C8: one process-refresh iteration updates the published list
atomically: the state it hands to the next iteration is either the
previous `processes_data` unchanged or the completely parsed row list,
never a partial one; in particular a row of at least 5 fields whose
memory field holds no digit makes the whole iteration keep the previous
value and print the error. -/
theorem processes_data_atomic
    (ext : Except String (List (List String))) (cur : List ProcEntry) :
    (∀ st p s, fetchProcessesIter ext cur = .next st p s →
      st = cur ∨ ∃ rows, ext = .ok rows ∧ st = rows.filterMap rowEntry?) ∧
    (∀ rows row, ext = .ok rows → row ∈ rows → 5 ≤ row.length →
      (row.getD 4 "").data.filter Char.isDigit = [] →
      ∃ e, fetchProcessesIter ext cur =
        .next cur (some ("Error fetching processes: " ++ e)) 3) := by
  constructor
  · intro st p s hiter
    cases h : procTryBlock ext with
    | error e =>
      left
      rw [fetchProcessesIter, h] at hiter
      cases hiter
      rfl
    | ok d =>
      right
      rw [fetchProcessesIter, h] at hiter
      cases hiter
      cases hext : ext with
      | error e =>
        subst hext
        simp only [procTryBlock] at h
        exact Except.noConfusion h
      | ok rows =>
        subst hext
        simp only [procTryBlock] at h
        exact ⟨rows, rfl, parseRows_ok_eq rows st h⟩
  · intro rows row hext hmem h5 hd
    obtain ⟨e, he⟩ := parseRow_error_of_no_digits row h5 hd
    obtain ⟨e2, h2⟩ := parseRows_error_of_row rows row hmem e he
    refine ⟨e2, ?_⟩
    have htb : procTryBlock ext = .error e2 := by
      subst hext
      simp only [procTryBlock]
      exact h2
    simp [fetchProcessesIter, htb]

theorem processes_data_atomic_witness :
    ∃ e, fetchProcessesIter
        (.ok [["chrome.exe", "123", "Console", "1", "N/A K"]]) [] =
      .next [] (some ("Error fetching processes: " ++ e)) 3 :=
  (processes_data_atomic
      (.ok [["chrome.exe", "123", "Console", "1", "N/A K"]]) []).2
    [["chrome.exe", "123", "Console", "1", "N/A K"]]
    ["chrome.exe", "123", "Console", "1", "N/A K"]
    rfl (List.mem_singleton.mpr rfl) (by decide) (by decide)

/-- C9: `running` is true from `__init__` on, the process-loop body never
changes it, and therefore a confirmed end_task call — which invokes
loop_fetch_processes directly on the calling thread — does not return
after any number of while-iterations of that loop. -/
theorem end_task_confirmed_never_returns :
    initState.running = true ∧
    (∀ (ext : Except String (List (List String))) (st st2 : MgrState),
      loopStep ext st = some st2 → st2.running = st.running) ∧
    (∀ (env : Nat → Except String (List (List String))) (st : MgrState)
      (fuel : Nat), st.running = true →
      endTaskReturnsWithin env st true true fuel = false) := by
  refine ⟨rfl, ?_, ?_⟩
  · intro ext st st2 hstep
    unfold loopStep at hstep
    by_cases hr : st.running
    · rw [if_pos hr] at hstep
      obtain ⟨d, p, hiter⟩ := fetchProcessesIter_next ext st.processes_data
      rw [hiter] at hstep
      cases hstep
      rfl
    · rw [if_neg hr] at hstep
      cases hstep
  · intro env st fuel hrun
    have key : ∀ n, ∃ st2, loopRun env st n = some st2 ∧ st2.running = true := by
      intro n
      induction n with
      | zero => exact ⟨st, rfl, hrun⟩
      | succ k ih =>
        obtain ⟨st2, h2, hr2⟩ := ih
        obtain ⟨d, p, hiter⟩ := fetchProcessesIter_next (env k) st2.processes_data
        refine ⟨{ st2 with processes_data := d }, ?_, hr2⟩
        simp only [loopRun, h2, loopStep, if_pos hr2, hiter]
    obtain ⟨st2, h2, _⟩ := key fuel
    simp [endTaskReturnsWithin, h2]

theorem end_task_confirmed_never_returns_witness :
    endTaskReturnsWithin (fun _ => .error "fail") initState true true 5 = false :=
  end_task_confirmed_never_returns.2.2 (fun _ => .error "fail") initState 5 rfl

theorem memLE_trans (a b c : ProcEntry)
    (hab : decide (b.memClean ≤ a.memClean) = true)
    (hbc : decide (c.memClean ≤ b.memClean) = true) :
    decide (c.memClean ≤ a.memClean) = true := by
  simp only [decide_eq_true_eq] at *
  exact le_trans hbc hab

theorem memLE_total (a b : ProcEntry) :
    (decide (b.memClean ≤ a.memClean) || decide (a.memClean ≤ b.memClean))
      = true := by
  simp only [Bool.or_eq_true, decide_eq_true_eq]
  exact (Nat.le_total b.memClean a.memClean)

/-- C10: only CSV rows with at least 5 fields yield process entries; every
entry's numeric memory key is the integer formed by deleting every
non-digit character from its memory field (so "14,500 K" gives 14500);
and the display shows exactly the entries of `processes_data`, sorted by
that key in descending order. -/
theorem rows_memkey_and_display (rows : List (List String))
    (data : List ProcEntry) :
    (∀ entries, parseRows rows = .ok entries →
      entries = rows.filterMap rowEntry?) ∧
    (∀ row : List String, row.length < 5 → rowEntry? row = none) ∧
    (∀ (row : List String) (p : ProcEntry), rowEntry? row = some p →
      5 ≤ row.length ∧
      p.memClean = digitsToNat ((row.getD 4 "").data.filter Char.isDigit)) ∧
    memCleanOf "14,500 K" = .ok 14500 ∧
    (displayOrder data).Perm data ∧
    (displayOrder data).Pairwise (fun a b => b.memClean ≤ a.memClean) := by
  refine ⟨fun entries h => parseRows_ok_eq rows entries h, ?_, ?_, ?_, ?_, ?_⟩
  · intro row hlt
    have : ¬ 5 ≤ row.length := Nat.not_le.mpr hlt
    simp only [rowEntry?, if_neg this]
  · intro row p hp
    by_cases hl : 5 ≤ row.length
    · refine ⟨hl, ?_⟩
      simp only [rowEntry?, if_pos hl] at hp
      cases hm : memCleanOf (row.getD 4 "") with
      | error e => rw [hm] at hp; cases hp
      | ok mc =>
        rw [hm] at hp
        cases hp
        simp only [memCleanOf] at hm
        by_cases hemp : ((row.getD 4 "").data.filter Char.isDigit).isEmpty
        · rw [if_pos hemp] at hm; cases hm
        · rw [if_neg hemp] at hm
          cases hm
          rfl
    · simp only [rowEntry?, if_neg hl] at hp
      exact Option.noConfusion hp
  · rfl
  · exact List.mergeSort_perm data _
  · have hs := List.sorted_mergeSort memLE_trans memLE_total data
    exact hs.imp (fun {a b} hab => by
      simpa only [decide_eq_true_eq] using hab)

theorem rows_memkey_and_display_witness :
    rowEntry? ["System Idle Process", "0"] = none :=
  (rows_memkey_and_display [] []).2.1 ["System Idle Process", "0"] (by decide)

end SysMon

namespace TaskStore

/-- C1: for every task list, filter(Active) returns exactly the records
with completed = false, filter(Completed) exactly those with
completed = true, and filter(All) the full list. -/
theorem filter_modes_exact (tasks : List Task) :
    filterTasks .All tasks = tasks ∧
    (∀ t : Task, t ∈ filterTasks .Active tasks ↔
      t ∈ tasks ∧ t.completed = false) ∧
    (∀ t : Task, t ∈ filterTasks .Completed tasks ↔
      t ∈ tasks ∧ t.completed = true) := by
  refine ⟨rfl, fun t => ?_, fun t => ?_⟩ <;>
    simp [filterTasks, List.mem_filter]

theorem taskOfJson_taskToJson (t : Task) : taskOfJson (taskToJson t) = some t := rfl

/-- C3: saving the task list as JSON and loading it back yields exactly the
records that were saved. -/
theorem save_load_roundtrip (tasks : List Task) :
    loadTasks (saveTasks tasks) = some tasks := by
  unfold loadTasks saveTasks
  induction tasks with
  | nil => rfl
  | cons t rest ih =>
    simp only [List.map_cons, List.mapM_cons, taskOfJson_taskToJson]
    simp only [List.map] at ih
    rw [ih]
    rfl

theorem taskLE_trans (a b c : Task) (hab : taskLE a b = true)
    (hbc : taskLE b c = true) : taskLE a c = true := by
  simp only [taskLE, decide_eq_true_eq] at *
  rcases hab with hab | ⟨hab, hab'⟩ <;> rcases hbc with hbc | ⟨hbc, hbc'⟩
  · exact Or.inl (Nat.lt_trans hab hbc)
  · exact Or.inl (hbc ▸ hab)
  · exact Or.inl (hab ▸ hbc)
  · exact Or.inr ⟨hab.trans hbc, le_trans hab' hbc'⟩

theorem taskLE_total (a b : Task) : (taskLE a b || taskLE b a) = true := by
  simp only [taskLE, Bool.or_eq_true, decide_eq_true_eq]
  rcases Nat.lt_trichotomy (taskRank a) (taskRank b) with h | h | h
  · exact Or.inl (Or.inl h)
  · rcases le_total a.created_at b.created_at with h' | h'
    · exact Or.inl (Or.inr ⟨h, h'⟩)
    · exact Or.inr (Or.inr ⟨h.symm, h'⟩)
  · exact Or.inr (Or.inl h)

/-- C2: sort produces a permutation of the input in which every incomplete
task precedes every completed task, and any two records in the same
completion group appear in ascending creation-timestamp order
(lexicographic string comparison). -/
theorem sort_groups_and_timestamps (tasks : List Task) :
    (sortTasks tasks).Perm tasks ∧
    (sortTasks tasks).Pairwise (fun a b =>
      (a.completed = false ∧ b.completed = true) ∨
      (a.completed = b.completed ∧ a.created_at ≤ b.created_at)) := by
  refine ⟨List.mergeSort_perm tasks taskLE, ?_⟩
  have hs := List.sorted_mergeSort taskLE_trans taskLE_total tasks
  refine hs.imp (fun {a b} hab => ?_)
  simp only [taskLE, decide_eq_true_eq] at hab
  rcases hab with hab | ⟨hab, hab'⟩
  · left
    revert hab
    unfold taskRank
    cases a.completed <;> cases b.completed <;> simp
  · right
    refine ⟨?_, hab'⟩
    revert hab
    unfold taskRank
    cases a.completed <;> cases b.completed <;> simp

/-- C4: adding a task with an empty or whitespace-only title leaves the
task list unchanged and surfaces no error. -/
theorem add_blank_title_noop (tasks : List Task) (title newId ts : String)
    (h : isBlankTitle title = true) :
    addTask tasks title newId ts = (tasks, none) := by
  simp [addTask, h]

theorem add_blank_title_noop_witness :
    isBlankTitle "  " = true ∧
    addTask [] "  " "1700000000" "2023-11-14" = ([], none) :=
  ⟨by decide, add_blank_title_noop [] "  " "1700000000" "2023-11-14" (by decide)⟩

/-- C5: toggling a task id that is present in the list twice returns the
list (and in particular that task's completion state) to its original
contents. -/
theorem toggle_twice_id (tasks : List Task) (tid : String)
    (h : ∃ t ∈ tasks, t.id = tid) :
    toggleTask (toggleTask tasks tid) tid = tasks := by
  unfold toggleTask
  rw [List.map_map]
  have hf : ∀ t : Task,
      ((fun t : Task =>
          if t.id == tid then { t with completed := !t.completed } else t) ∘
        (fun t : Task =>
          if t.id == tid then { t with completed := !t.completed } else t)) t
        = t := by
    intro t
    by_cases hc : t.id == tid <;>
      simp [Function.comp, hc, Bool.not_not]
  calc tasks.map _ = tasks.map id := List.map_congr_left (fun a _ => hf a)
    _ = tasks := List.map_id tasks

theorem toggle_twice_id_witness :
    (∃ t ∈ [({ id := "1", title := "a", completed := false,
               created_at := "t1" } : Task)], t.id = "1") ∧
    toggleTask (toggleTask
      [({ id := "1", title := "a", completed := false,
          created_at := "t1" } : Task)] "1") "1"
      = [({ id := "1", title := "a", completed := false,
            created_at := "t1" } : Task)] :=
  ⟨⟨_, List.mem_singleton.mpr rfl, rfl⟩,
    toggle_twice_id _ "1" ⟨_, List.mem_singleton.mpr rfl, rfl⟩⟩

/-- C6: deleting an id that matches no record in the list leaves the task
list unchanged, whether or not the dialog is confirmed. -/
theorem delete_nonexistent_noop (tasks : List Task) (tid : String)
    (confirmed : Bool) (h : ∀ t ∈ tasks, t.id ≠ tid) :
    deleteTask tasks tid confirmed = tasks := by
  unfold deleteTask
  split
  · rw [List.filter_eq_self]
    intro a ha
    simpa using h a ha
  · rfl

theorem delete_nonexistent_noop_witness :
    (∀ t ∈ [({ id := "1", title := "a", completed := false,
               created_at := "t1" } : Task)], t.id ≠ "2") ∧
    deleteTask
      [({ id := "1", title := "a", completed := false,
          created_at := "t1" } : Task)] "2" true
      = [({ id := "1", title := "a", completed := false,
            created_at := "t1" } : Task)] :=
  ⟨by decide, delete_nonexistent_noop _ "2" true (by decide)⟩

end TaskStore
